import Mathlib

/-!
Verification of the multi-file CSV/Excel append-and-download tool
(`src/app.py`).  The embedding models a pandas DataFrame as a list of
column labels together with a list of rows, a cell being either NA
(`Cell.null`), a string, or an integer.  The external readers
(`read_csv_safely`, `read_excel_safely`) are opaque library calls; the
per-file loop therefore consumes an `Option DataFrame` standing for the
result of a parse that may raise.  All other operations of the script
(`fix_headers_if_needed`, the `source_file` tagging, the dict store,
`pd.concat`, the `groupby`/`size` summary, `export_to_excel`, and the
download-name fixup) are embedded directly from the source.
-/

/-- A scalar cell value.  `null` models pandas NA (NaN/None); `str` and
`int` model string and integer scalars.  Column labels are also cells:
a freshly parsed header-less frame has `int` positional labels
(pandas `RangeIndex`), and `df.columns = df.iloc[i]` can install any
row values as labels. -/
inductive Cell where
  | null : Cell
  | str : String → Cell
  | int : Int → Cell
deriving DecidableEq

/-- `notna`: pandas `notna` is false exactly on NA cells.  (An empty
string is *not* NA.) -/
def Cell.notna : Cell → Bool
  | .null => false
  | _ => true

/-- `isinstance(col, int)` on a column label. -/
def Cell.isInt : Cell → Bool
  | .int _ => true
  | _ => false

/-- `str(x)` as applied by `.astype(str)`: NA prints as `"nan"`,
integers in decimal. -/
def cellToStr : Cell → String
  | .null => "nan"
  | .str s => s
  | .int n => toString n

/-- A pandas DataFrame: ordered column labels plus ordered rows of
cells.  Row `r` holds the value of column `cols[j]` at position `j`. -/
structure DataFrame where
  cols : List Cell
  rows : List (List Cell)
deriving DecidableEq

/-- Rectangularity invariant of a DataFrame: every row has one cell per
column. -/
def Wf (df : DataFrame) : Prop := ∀ r ∈ df.rows, r.length = df.cols.length

/-- Whitespace as stripped by `str.strip` (restricted to the ASCII
whitespace characters relevant here). -/
def isWsChar (c : Char) : Bool :=
  decide (c = ' ') || decide (c = '\t') || decide (c = '\n') || decide (c = '\r')

/-- `str.strip()` on the character list: drop leading and trailing
whitespace. -/
def stripChars (l : List Char) : List Char :=
  ((l.dropWhile isWsChar).reverse.dropWhile isWsChar).reverse

/-- `.str.replace("\n", " ", regex=False)`. -/
def replaceNl (l : List Char) : List Char :=
  l.map (fun c => if c = '\n' then ' ' else c)

/-- The column-name cleaning of lines 61-66:
`.astype(str).str.strip().str.replace("\n", " ")` applied to one label
already coerced to a string. -/
def cleanLabel (s : String) : String := String.mk (replaceNl (stripChars s.data))

/-- One column label after `.astype(str).str.strip().str.replace(...)`. -/
def cleanCell (c : Cell) : Cell := Cell.str (cleanLabel (cellToStr c))

/-- `df.iloc[i].notna().sum() > 0`: the row has at least one non-NA
cell. -/
def rowHasData (r : List Cell) : Bool := r.any Cell.notna

/-- The scan of lines 50-54: first index `i` with
`df.iloc[i].notna().sum() > 0`, `none` when the loop never breaks. -/
def firstDataRow : List (List Cell) → Option Nat
  | [] => none
  | r :: rs => if rowHasData r then some 0 else (firstDataRow rs).map (· + 1)

/-- Lines 49-58 of `fix_headers_if_needed`: when every column label is
an `int`, promote the first data-bearing row to the header and drop all
rows up to and including it (`reset_index(drop=True)` is implicit in the
list model). -/
def promoteHeaders (df : DataFrame) : DataFrame :=
  if df.cols.all Cell.isInt then
    match firstDataRow df.rows with
    | some i => DataFrame.mk (df.rows.getD i []) (df.rows.drop (i + 1))
    | none => df
  else df

/-- `fix_headers_if_needed` (lines 47-68): header promotion followed by
unconditional label cleaning. -/
def fix_headers_if_needed (df : DataFrame) : DataFrame :=
  DataFrame.mk ((promoteHeaders df).cols.map cleanCell) (promoteHeaders df).rows

/-- The provenance column label used at line 101. -/
def srcLabel : Cell := Cell.str "source_file"

/-- `df["source_file"] = file.name` (line 101): overwrite the column if
it already exists, else append it as the last column with the constant
value. -/
def addSourceFile (name : String) (df : DataFrame) : DataFrame :=
  if srcLabel ∈ df.cols then
    DataFrame.mk df.cols
      (df.rows.map (fun r =>
        List.zipWith (fun c v => if c = srcLabel then Cell.str name else v) df.cols r))
  else
    DataFrame.mk (df.cols ++ [srcLabel]) (df.rows.map (fun r => r ++ [Cell.str name]))

/-- Value of column `lab` in row `r` of a frame with labels `cols`;
`null` when the column is absent (pandas alignment fill). -/
def getCell (cols r : List Cell) (lab : Cell) : Cell :=
  match (cols.zip r).find? (fun p => decide (p.1 = lab)) with
  | some p => p.2
  | none => Cell.null

/-- Extend an accumulated label list with the labels of one more frame,
keeping first-appearance order (the outer join of `pd.concat`). -/
def addCols (acc cs : List Cell) : List Cell :=
  acc ++ cs.filter (fun c => decide (c ∉ acc))

def unionColsAux : List Cell → List DataFrame → List Cell
  | acc, [] => acc
  | acc, df :: dfs => unionColsAux (addCols acc df.cols) dfs

/-- Column labels of `pd.concat(dfs)`: union in first-appearance
order. -/
def unionCols (dfs : List DataFrame) : List Cell := unionColsAux [] dfs

/-- Align one source row to the combined column list; columns the
source lacks are filled with `null`. -/
def alignRow (ac cols r : List Cell) : List Cell := ac.map (fun c => getCell cols r c)

def concatRows (ac : List Cell) : List DataFrame → List (List Cell)
  | [] => []
  | df :: dfs => df.rows.map (alignRow ac df.cols) ++ concatRows ac dfs

/-- `pd.concat(combined_list, ignore_index=True)` (line 117): row-wise
append in list order with outer column alignment. -/
def concatDFs (dfs : List DataFrame) : DataFrame :=
  DataFrame.mk (unionCols dfs) (concatRows (unionCols dfs) dfs)

/-- The `source_file` column of a frame, as a list of cell values. -/
def sourceVals (df : DataFrame) : List Cell :=
  df.rows.map (fun r => getCell df.cols r srcLabel)

/-- Total order used by `groupby`'s key sort, via the string form of a
cell (all keys arising here are strings). -/
def cellLe (a b : Cell) : Bool := !(decide (cellToStr b < cellToStr a))

def insertCell (c : Cell) : List Cell → List Cell
  | [] => [c]
  | d :: ds => if cellLe c d then c :: d :: ds else d :: insertCell c ds

/-- Insertion sort of group keys (`groupby` sorts keys by default). -/
def sortCells (l : List Cell) : List Cell := l.foldr insertCell []

/-- `combined_df.groupby("source_file").size()` (lines 120-124): one
entry per distinct non-NA `source_file` value, keys sorted, each with
the number of rows carrying that value. -/
def summary_df (df : DataFrame) : List (Cell × Nat) :=
  (sortCells (((sourceVals df).dedup).filter (fun c => decide (c ≠ Cell.null)))).map
    (fun k => (k, (sourceVals df).countP (fun x => decide (x = k))))

/-- `.reset_index(name="Row_Count")`: the summary as a two-column
frame. -/
def summaryToDF (s : List (Cell × Nat)) : DataFrame :=
  DataFrame.mk [Cell.str "source_file", Cell.str "Row_Count"]
    (s.map (fun p => [p.1, Cell.int (Int.ofNat p.2)]))

/-- `export_to_excel` (lines 70-80): the sheets written, in order, as
(sheet name, frame) pairs — `Combined_Data`, `File_Summary`, then one
sheet per stored file with the name truncated to 31 characters. -/
def export_to_excel (raw_dfs : List (String × DataFrame))
    (combined summary : DataFrame) : List (String × DataFrame) :=
  ("Combined_Data", combined) :: ("File_Summary", summary) ::
    raw_dfs.map (fun p => (p.1.take 31, p.2))

/-- One uploaded file: its name and the result of the opaque pandas
parse (`none` when `read_csv_safely` / `read_excel_safely` raises). -/
structure UploadedFile where
  name : String
  parsed : Option DataFrame
deriving DecidableEq

/-- Lines 92-101 for one file: parse, repair headers, tag with the file
name; `none` when the parse raised. -/
def processOne (f : UploadedFile) : Option DataFrame :=
  f.parsed.map (fun df => addSourceFile f.name (fix_headers_if_needed df))

/-- The mutable state of the upload loop: the `raw_dfs` dict (insertion
order, keyed by file name), `combined_list`, and the file names reported
via `st.error`. -/
structure AppState where
  raw_dfs : List (String × DataFrame)
  combined_list : List DataFrame
  errors : List String
deriving DecidableEq

/-- Python dict assignment `d[k] = v`: replace the value in place when
the key exists, else append the binding. -/
def dictInsert (d : List (String × DataFrame)) (k : String) (v : DataFrame) :
    List (String × DataFrame) :=
  if d.any (fun p => decide (p.1 = k)) then
    d.map (fun p => if p.1 = k then (k, v) else p)
  else d ++ [(k, v)]

/-- One iteration of the `for file in uploaded_files` loop (lines
89-113): on success store and append, on failure record the error and
continue. -/
def stepFile (s : AppState) (f : UploadedFile) : AppState :=
  match processOne f with
  | none => AppState.mk s.raw_dfs s.combined_list (s.errors ++ [f.name])
  | some d => AppState.mk (dictInsert s.raw_dfs f.name d) (s.combined_list ++ [d]) s.errors

/-- The whole upload loop. -/
def processFiles (files : List UploadedFile) : AppState :=
  files.foldl stepFile (AppState.mk [] [] [])

/-- `combined_df` for a processed batch. -/
def combinedOf (st : AppState) : DataFrame := concatDFs st.combined_list

/-- The exported workbook for a batch of uploads: sheets of
`export_to_excel(raw_dfs, combined_df, summary_df)`. -/
def appExport (files : List UploadedFile) : List (String × DataFrame) :=
  export_to_excel (processFiles files).raw_dfs (combinedOf (processFiles files))
    (summaryToDF (summary_df (combinedOf (processFiles files))))

/-- Default of the `st.text_input` at lines 138-141. -/
def defaultOutputName : String := "combined_output.xlsx"

/-- `str.lower()` (on the code points appearing in file names). -/
def strLower (s : String) : String := String.mk (s.data.map Char.toLower)

/-- `str.endswith(suffix)`. -/
def strEndsWith (s suf : String) : Bool := List.isSuffixOf suf.data s.data

/-- Lines 143-144: append `.xlsx` unless the lower-cased name already
ends with it. -/
def finalizeFilename (s : String) : String :=
  if strEndsWith (strLower s) ".xlsx" then s else s ++ ".xlsx"

/-- The first character, if any, is not whitespace. -/
def noLeadWs : List Char → Bool
  | [] => true
  | c :: _ => !isWsChar c

/-- The last character, if any, is not whitespace. -/
def noTrailWs (l : List Char) : Bool := noLeadWs l.reverse

/-- Dict lookup in the `raw_dfs` store. -/
def lookupD (d : List (String × DataFrame)) (k : String) : Option DataFrame :=
  (d.find? (fun p => decide (p.1 = k))).map Prod.snd

/-- The processed frame of a file known to parse: headers repaired and
provenance tagged. -/
def procD (f : UploadedFile) : DataFrame :=
  addSourceFile f.name (fix_headers_if_needed (f.parsed.getD (DataFrame.mk [] [])))

/-- Concatenation of a list of lists (row blocks of the combined
frame). -/
def catLists {α : Type} : List (List α) → List α
  | [] => []
  | l :: ls => l ++ catLists ls

/-- A frame is tagged with source `n`: every row carries `n` in the
`source_file` column. -/
def Tagged (n : String) (df : DataFrame) : Prop :=
  ∀ r ∈ df.rows, getCell df.cols r srcLabel = Cell.str n

instance decWf (df : DataFrame) : Decidable (Wf df) :=
  decidable_of_iff (∀ r ∈ df.rows, r.length = df.cols.length) Iff.rfl

instance decTagged (n : String) (df : DataFrame) : Decidable (Tagged n df) :=
  decidable_of_iff (∀ r ∈ df.rows, getCell df.cols r srcLabel = Cell.str n) Iff.rfl

/-- Sample frames and uploads used by the concrete witnesses and
counterexamples below. -/
def wD1 : DataFrame := DataFrame.mk [Cell.str "h"] [[Cell.int 1]]

def wD2 : DataFrame := DataFrame.mk [Cell.str "h"] [[Cell.int 2], [Cell.int 3]]

def wD3 : DataFrame := DataFrame.mk [Cell.str "k"] [[Cell.int 9]]

def wDEmpty : DataFrame := DataFrame.mk [Cell.str "h"] []

def wF1 : UploadedFile := UploadedFile.mk "a.csv" (some wD1)

def wF2 : UploadedFile := UploadedFile.mk "a.csv" (some wD2)

def wF3 : UploadedFile := UploadedFile.mk "b.csv" (some wD3)

def wFBad : UploadedFile := UploadedFile.mk "bad.csv" none

def wFE1 : UploadedFile := UploadedFile.mk "a.csv" (some wDEmpty)

def wFE2 : UploadedFile := UploadedFile.mk "a.csv" (some wDEmpty)

/-- A dataset already tagged with `source_file = "a.csv"`, one row. -/
def wTagged : DataFrame := DataFrame.mk [srcLabel] [[Cell.str "a.csv"]]

/-- A tagged dataset with no rows. -/
def wTaggedEmpty : DataFrame := DataFrame.mk [srcLabel] []

/-- A dataset tagged with `source_file = "b.csv"`, one row. -/
def wTaggedB : DataFrame := DataFrame.mk [srcLabel] [[Cell.str "b.csv"]]

/-- Header-less parse: integer labels, a blank row, then the header row,
then one data row. -/
def wDHdr : DataFrame :=
  DataFrame.mk [Cell.int 0, Cell.int 1]
    [[Cell.null, Cell.null], [Cell.str "a", Cell.str "b"], [Cell.int 1, Cell.int 2]]

/-- Integer labels and a single all-NA row: no data-bearing row. -/
def wDNoData : DataFrame := DataFrame.mk [Cell.int 0] [[Cell.null]]

/-- Integer labels with a non-empty garbage row 0 above the real header
in row 1. -/
def wDGarbage : DataFrame :=
  DataFrame.mk [Cell.int 0] [[Cell.str "junk"], [Cell.str "h"], [Cell.str "v"]]

/-- Integer labels with an all-NA row 0 and the real header in row 1. -/
def wDSecondRow : DataFrame :=
  DataFrame.mk [Cell.int 0] [[Cell.null], [Cell.str "h"], [Cell.str "v"]]

/-- A frame that already carries a `source_file` column. -/
def wDSrc : DataFrame :=
  DataFrame.mk [Cell.str "a", srcLabel] [[Cell.int 1, Cell.str "old"]]

/-! ### Lemmas about the label-cleaning characters -/

theorem noLeadWs_dropWhile (l : List Char) : noLeadWs (l.dropWhile isWsChar) = true := by
  induction l with
  | nil => rfl
  | cons c t ih =>
    by_cases h : isWsChar c = true
    · simpa [List.dropWhile_cons, h] using ih
    · have hf : isWsChar c = false := by simpa using h
      simp [List.dropWhile_cons, hf, noLeadWs]

theorem noLeadWs_of_prefix {l₁ l₂ : List Char} (h : l₁ <+: l₂)
    (h₂ : noLeadWs l₂ = true) : noLeadWs l₁ = true := by
  obtain ⟨t, ht⟩ := h
  cases l₁ with
  | nil => rfl
  | cons c cs =>
    rw [← ht] at h₂
    simpa [noLeadWs] using h₂

theorem noLeadWs_stripChars (l : List Char) : noLeadWs (stripChars l) = true := by
  have hsuf : (l.dropWhile isWsChar).reverse.dropWhile isWsChar <:+ (l.dropWhile isWsChar).reverse :=
    List.dropWhile_suffix _
  have hpre : ((l.dropWhile isWsChar).reverse.dropWhile isWsChar).reverse <+: l.dropWhile isWsChar := by
    have := List.reverse_prefix.mpr hsuf
    simpa using this
  exact noLeadWs_of_prefix hpre (noLeadWs_dropWhile l)

theorem noTrailWs_stripChars (l : List Char) : noTrailWs (stripChars l) = true := by
  unfold noTrailWs stripChars
  simpa using noLeadWs_dropWhile (l.dropWhile isWsChar).reverse

theorem noLeadWs_replaceNl {l : List Char} (h : noLeadWs l = true) :
    noLeadWs (replaceNl l) = true := by
  cases l with
  | nil => rfl
  | cons c t =>
    have hws : isWsChar c = false := by simpa [noLeadWs] using h
    have hne : c ≠ '\n' := by
      intro e
      rw [e] at hws
      simp [isWsChar] at hws
    simp [replaceNl, noLeadWs, hne, hws]

theorem noTrailWs_replaceNl {l : List Char} (h : noTrailWs l = true) :
    noTrailWs (replaceNl l) = true := by
  unfold noTrailWs replaceNl
  rw [← List.map_reverse]
  exact noLeadWs_replaceNl h

theorem no_newline_replaceNl (l : List Char) : ∀ c ∈ replaceNl l, c ≠ '\n' := by
  intro c hc
  obtain ⟨a, _, rfl⟩ := List.mem_map.mp hc
  by_cases ha : a = '\n'
  · simp [ha]
  · simp [ha]

theorem cleanLabel_ok (s : String) :
    noLeadWs (cleanLabel s).data = true ∧ noTrailWs (cleanLabel s).data = true ∧
      ∀ c ∈ (cleanLabel s).data, c ≠ '\n' := by
  refine ⟨?_, ?_, ?_⟩
  · exact noLeadWs_replaceNl (noLeadWs_stripChars s.data)
  · exact noTrailWs_replaceNl (noTrailWs_stripChars s.data)
  · exact no_newline_replaceNl _

/-! ### Lemmas about the header-row scan -/

theorem firstDataRow_some_lt {rows : List (List Cell)} {i : Nat}
    (h : firstDataRow rows = some i) : i < rows.length := by
  induction rows generalizing i with
  | nil => simp [firstDataRow] at h
  | cons r rs ih =>
    by_cases hr : rowHasData r = true
    · simp [firstDataRow, hr] at h
      simp only [List.length_cons]
      omega
    · have hf : rowHasData r = false := by simpa using hr
      simp [firstDataRow, hf] at h
      obtain ⟨j, hj, rfl⟩ := h
      have := ih hj
      simp
      omega

theorem firstDataRow_eq_none {rows : List (List Cell)}
    (h : ∀ r ∈ rows, rowHasData r = false) : firstDataRow rows = none := by
  induction rows with
  | nil => rfl
  | cons r rs ih =>
    have hr := h r (List.mem_cons_self r rs)
    have ih' := ih (fun q hq => h q (List.mem_cons_of_mem r hq))
    simp [firstDataRow, hr, ih']

theorem firstDataRow_cons2 {r0 r1 : List Cell} {rs : List (List Cell)}
    (h0 : rowHasData r0 = false) (h1 : rowHasData r1 = true) :
    firstDataRow (r0 :: r1 :: rs) = some 1 := by
  simp [firstDataRow, h0, h1]

/-! ### Lemmas about `getCell` -/

theorem getCell_map_self {cols : List Cell} {lab : Cell} (f : Cell → Cell)
    (h : lab ∈ cols) : getCell cols (cols.map f) lab = f lab := by
  induction cols with
  | nil => simp at h
  | cons c cs ih =>
    by_cases hc : c = lab
    · subst hc
      simp [getCell, List.find?_cons]
    · have hmem : lab ∈ cs := by
        rcases List.mem_cons.mp h with he | hm
        · exact absurd he.symm hc
        · exact hm
      have hce : (decide (c = lab)) = false := by simpa using hc
      simpa [getCell, List.zip_cons_cons, List.find?_cons, hce] using ih hmem

theorem getCell_append_last {cols r : List Cell} {lab v : Cell}
    (hlen : r.length = cols.length) (h : lab ∉ cols) :
    getCell (cols ++ [lab]) (r ++ [v]) lab = v := by
  induction cols generalizing r with
  | nil =>
    have : r = [] := List.length_eq_zero.mp hlen
    subst this
    simp [getCell, List.find?_cons]
  | cons c cs ih =>
    cases r with
    | nil => simp at hlen
    | cons a as =>
      have hlen' : as.length = cs.length := by simpa using hlen
      have hcl : c ≠ lab := by
        intro e
        exact h (by simp [e])
      have hnotin : lab ∉ cs := fun e => h (List.mem_cons_of_mem _ e)
      have hce : (decide (c = lab)) = false := by simpa using hcl
      simpa [getCell, List.zip_cons_cons, List.find?_cons, hce] using ih hlen' hnotin

theorem getCell_overwrite {cols r : List Cell} {x lab : Cell}
    (hlen : r.length = cols.length) (h : lab ∈ cols) :
    getCell cols (List.zipWith (fun c v => if c = lab then x else v) cols r) lab = x := by
  induction cols generalizing r with
  | nil => simp at h
  | cons c cs ih =>
    cases r with
    | nil => simp at hlen
    | cons a as =>
      have hlen' : as.length = cs.length := by simpa using hlen
      by_cases hc : c = lab
      · simp [getCell, List.zipWith_cons_cons, List.zip_cons_cons, List.find?_cons, hc]
      · have hmem : lab ∈ cs := by
          rcases List.mem_cons.mp h with he | hm
          · exact absurd he.symm hc
          · exact hm
        have hce : (decide (c = lab)) = false := by simpa using hc
        simpa [getCell, List.zipWith_cons_cons, List.zip_cons_cons, List.find?_cons, hce, hc]
          using ih hlen' hmem

theorem getCell_ne_null_mem {cols r : List Cell} {lab : Cell}
    (h : getCell cols r lab ≠ Cell.null) : lab ∈ cols := by
  unfold getCell at h
  cases hf : (cols.zip r).find? (fun p => decide (p.1 = lab)) with
  | none => rw [hf] at h; simp at h
  | some p =>
    have hp : p.1 = lab := by simpa using List.find?_some hf
    have hm := List.mem_of_find?_eq_some hf
    have : p.1 ∈ cols := (List.of_mem_zip (by exact hm)).1
    rwa [hp] at this

/-! ### Lemmas about tagging and wellformedness -/

theorem srcLabel_mem_addSourceFile (name : String) (df : DataFrame) :
    srcLabel ∈ (addSourceFile name df).cols := by
  unfold addSourceFile
  by_cases h : srcLabel ∈ df.cols
  · rw [if_pos h]
    exact h
  · rw [if_neg h]
    simp

theorem wf_addSourceFile {df : DataFrame} (name : String) (hwf : Wf df) :
    Wf (addSourceFile name df) := by
  unfold addSourceFile
  by_cases h : srcLabel ∈ df.cols
  · rw [if_pos h]
    intro r hr
    obtain ⟨r₀, hr₀, rfl⟩ := List.mem_map.mp hr
    simp [List.length_zipWith, hwf r₀ hr₀]
  · rw [if_neg h]
    intro r hr
    obtain ⟨r₀, hr₀, rfl⟩ := List.mem_map.mp hr
    simp [hwf r₀ hr₀]

theorem getCell_addSourceFile {name : String} {df : DataFrame} (hwf : Wf df) :
    ∀ r ∈ (addSourceFile name df).rows,
      getCell (addSourceFile name df).cols r srcLabel = Cell.str name := by
  unfold addSourceFile
  by_cases h : srcLabel ∈ df.cols
  · rw [if_pos h]
    intro r hr
    obtain ⟨r₀, hr₀, rfl⟩ := List.mem_map.mp hr
    exact getCell_overwrite (hwf r₀ hr₀) h
  · rw [if_neg h]
    intro r hr
    obtain ⟨r₀, hr₀, rfl⟩ := List.mem_map.mp hr
    exact getCell_append_last (hwf r₀ hr₀) h

theorem tagged_addSourceFile {name : String} {df : DataFrame} (hwf : Wf df) :
    Tagged name (addSourceFile name df) :=
  fun r hr => getCell_addSourceFile hwf r hr

theorem wf_promoteHeaders {df : DataFrame} (hwf : Wf df) : Wf (promoteHeaders df) := by
  unfold promoteHeaders
  split
  · cases hf : firstDataRow df.rows with
    | none => simpa using hwf
    | some i =>
      intro r hr
      simp only []
      have hi : i < df.rows.length := firstDataRow_some_lt hf
      have hmem : df.rows.getD i [] ∈ df.rows := by
        rw [List.getD_eq_getElem _ _ hi]
        exact List.getElem_mem hi
      have h1 : r ∈ df.rows := by
        have : r ∈ df.rows.drop (i + 1) := by simpa using hr
        exact List.mem_of_mem_drop this
      rw [hwf r h1, hwf _ hmem]
  · exact hwf

theorem wf_fix_headers {df : DataFrame} (hwf : Wf df) : Wf (fix_headers_if_needed df) := by
  have h := wf_promoteHeaders hwf
  intro r hr
  have := h r (by simpa [fix_headers_if_needed] using hr)
  simpa [fix_headers_if_needed] using this

/-! ### Lemmas about column union and concatenation -/

theorem mem_addCols {c : Cell} {acc cs : List Cell} :
    c ∈ addCols acc cs ↔ c ∈ acc ∨ c ∈ cs := by
  unfold addCols
  by_cases h : c ∈ acc
  · simp [List.mem_append, List.mem_filter, h]
  · simp [List.mem_append, List.mem_filter, h]

theorem mem_unionColsAux {c : Cell} :
    ∀ (dfs : List DataFrame) (acc : List Cell),
      c ∈ unionColsAux acc dfs ↔ c ∈ acc ∨ ∃ df ∈ dfs, c ∈ df.cols := by
  intro dfs
  induction dfs with
  | nil => intro acc; simp [unionColsAux]
  | cons df dfs ih =>
    intro acc
    simp only [unionColsAux]
    rw [ih, mem_addCols]
    simp only [List.mem_cons]
    constructor
    · rintro ((h | h) | ⟨d, hd, hc⟩)
      · exact Or.inl h
      · exact Or.inr ⟨df, Or.inl rfl, h⟩
      · exact Or.inr ⟨d, Or.inr hd, hc⟩
    · rintro (h | ⟨d, (rfl | hd), hc⟩)
      · exact Or.inl (Or.inl h)
      · exact Or.inl (Or.inr hc)
      · exact Or.inr ⟨d, hd, hc⟩

theorem mem_unionCols {c : Cell} {dfs : List DataFrame} :
    c ∈ unionCols dfs ↔ ∃ df ∈ dfs, c ∈ df.cols := by
  unfold unionCols
  rw [mem_unionColsAux]
  simp

theorem concatRows_length (ac : List Cell) (dfs : List DataFrame) :
    (concatRows ac dfs).length = (dfs.map (fun df => df.rows.length)).sum := by
  induction dfs with
  | nil => rfl
  | cons df dfs ih => simp [concatRows, ih]

theorem getCell_alignRow {ac cols r : List Cell} {lab : Cell} (h : lab ∈ ac) :
    getCell ac (alignRow ac cols r) lab = getCell cols r lab :=
  getCell_map_self (fun c => getCell cols r c) h

theorem map_eq_replicate {α β : Type} {f : α → β} {l : List α} {b : β}
    (h : ∀ a ∈ l, f a = b) : l.map f = List.replicate l.length b := by
  induction l with
  | nil => rfl
  | cons a t ih =>
    simp [h a (List.mem_cons_self a t), ih (fun x hx => h x (List.mem_cons_of_mem _ hx)),
      List.replicate_succ]

theorem sourceVals_concat_tagged (ac : List Cell) (pairs : List (String × DataFrame))
    (hac : ∀ p ∈ pairs, srcLabel ∈ ac)
    (htag : ∀ p ∈ pairs, Tagged p.1 p.2) :
    (concatRows ac (pairs.map Prod.snd)).map (fun r => getCell ac r srcLabel)
      = catLists (pairs.map (fun p => List.replicate p.2.rows.length (Cell.str p.1))) := by
  induction pairs with
  | nil => rfl
  | cons p ps ih =>
    simp only [List.map_cons, concatRows, catLists, List.map_append]
    congr 1
    · rw [List.map_map]
      have hlen : p.2.rows.length = (p.2.rows.map (alignRow ac p.2.cols)).length := by simp
      rw [show (List.replicate p.2.rows.length (Cell.str p.1))
            = List.replicate p.2.rows.length (Cell.str p.1) from rfl]
      apply map_eq_replicate
      intro r hr
      show getCell ac (alignRow ac p.2.cols r) srcLabel = Cell.str p.1
      rw [getCell_alignRow (hac p (List.mem_cons_self p ps))]
      exact htag p (List.mem_cons_self p ps) r hr
    · exact ih (fun q hq => hac q (List.mem_cons_of_mem _ hq))
        (fun q hq => htag q (List.mem_cons_of_mem _ hq))

/-! ### Lemmas about the key sort and list flattening -/

theorem length_insertCell (c : Cell) (l : List Cell) :
    (insertCell c l).length = l.length + 1 := by
  induction l with
  | nil => rfl
  | cons d ds ih =>
    by_cases h : cellLe c d = true
    · simp [insertCell, h]
    · simp [insertCell, h, ih]

theorem length_sortCells (l : List Cell) : (sortCells l).length = l.length := by
  induction l with
  | nil => rfl
  | cons c t ih =>
    show (insertCell c (sortCells t)).length = t.length + 1
    rw [length_insertCell, ih]

theorem mem_insertCell {a c : Cell} {l : List Cell} :
    a ∈ insertCell c l ↔ a = c ∨ a ∈ l := by
  induction l with
  | nil => simp [insertCell]
  | cons d ds ih =>
    by_cases h : cellLe c d = true
    · simp [insertCell, h, List.mem_cons]
    · simp only [insertCell, if_neg h, List.mem_cons, ih]
      tauto

theorem mem_sortCells {a : Cell} {l : List Cell} : a ∈ sortCells l ↔ a ∈ l := by
  induction l with
  | nil => simp [sortCells]
  | cons c t ih =>
    show a ∈ insertCell c (sortCells t) ↔ _
    rw [mem_insertCell, ih]
    simp [List.mem_cons]

theorem mem_catLists {α : Type} {a : α} {ls : List (List α)} :
    a ∈ catLists ls ↔ ∃ l ∈ ls, a ∈ l := by
  induction ls with
  | nil => simp [catLists]
  | cons l ls ih =>
    simp only [catLists, List.mem_append, ih, List.mem_cons]
    constructor
    · rintro (h | ⟨m, hm, ha⟩)
      · exact ⟨l, Or.inl rfl, h⟩
      · exact ⟨m, Or.inr hm, ha⟩
    · rintro ⟨m, (rfl | hm), ha⟩
      · exact Or.inl ha
      · exact Or.inr ⟨m, hm, ha⟩

theorem countP_catLists {α : Type} (p : α → Bool) (ls : List (List α)) :
    (catLists ls).countP p = (ls.map (fun l => l.countP p)).sum := by
  induction ls with
  | nil => rfl
  | cons l ls ih => simp [catLists, List.countP_append, ih]

theorem countP_replicate {α : Type} (p : α → Bool) (n : Nat) (a : α) :
    (List.replicate n a).countP p = if p a then n else 0 := by
  induction n with
  | zero => simp
  | succ n ih =>
    simp only [List.replicate_succ, List.countP_cons, ih]
    by_cases h : p a = true
    · simp [h]
    · simp [h]

/-! ### Counting `source_file` values in a tagged concatenation -/

theorem countP_tagged_vals_notmem (pairs : List (String × DataFrame)) {n : String}
    (hn : n ∉ pairs.map Prod.fst) :
    (catLists (pairs.map (fun q => List.replicate q.2.rows.length (Cell.str q.1)))).countP
      (fun x => decide (x = Cell.str n)) = 0 := by
  induction pairs with
  | nil => rfl
  | cons q qs ih =>
    have hq : q.1 ≠ n := by
      intro e
      exact hn (by simp [e])
    have hqs : n ∉ qs.map Prod.fst := fun e => hn (by simp [List.mem_cons]; right; simpa using e)
    simp only [List.map_cons, catLists, List.countP_append, ih hqs, countP_replicate]
    simp [hq]

theorem countP_tagged_vals (pairs : List (String × DataFrame)) {p : String × DataFrame}
    (hnd : (pairs.map Prod.fst).Nodup) (hp : p ∈ pairs) :
    (catLists (pairs.map (fun q => List.replicate q.2.rows.length (Cell.str q.1)))).countP
      (fun x => decide (x = Cell.str p.1)) = p.2.rows.length := by
  induction pairs with
  | nil => simp at hp
  | cons q qs ih =>
    have hnd' : (qs.map Prod.fst).Nodup := (List.nodup_cons.mp (by simpa using hnd)).2
    have hqnot : q.1 ∉ qs.map Prod.fst := (List.nodup_cons.mp (by simpa using hnd)).1
    rcases List.mem_cons.mp hp with rfl | hmem
    · simp only [List.map_cons, catLists, List.countP_append, countP_replicate]
      rw [countP_tagged_vals_notmem qs hqnot]
      simp
    · have hne : q.1 ≠ p.1 := by
        intro e
        exact hqnot (by rw [e]; exact List.mem_map.mpr ⟨p, hmem, rfl⟩)
      simp only [List.map_cons, catLists, List.countP_append, countP_replicate, ih hnd' hmem]
      simp [hne]

theorem mem_tagged_vals {pairs : List (String × DataFrame)} {a : Cell}
    (hnz : ∀ p ∈ pairs, p.2.rows ≠ []) :
    a ∈ catLists (pairs.map (fun q => List.replicate q.2.rows.length (Cell.str q.1)))
      ↔ a ∈ pairs.map (fun q => Cell.str q.1) := by
  rw [mem_catLists]
  constructor
  · rintro ⟨l, hl, hal⟩
    obtain ⟨q, hq, rfl⟩ := List.mem_map.mp hl
    have := (List.mem_replicate.mp hal).2
    exact List.mem_map.mpr ⟨q, hq, this.symm⟩
  · intro ha
    obtain ⟨q, hq, rfl⟩ := List.mem_map.mp ha
    refine ⟨List.replicate q.2.rows.length (Cell.str q.1), List.mem_map.mpr ⟨q, hq, rfl⟩, ?_⟩
    rw [List.mem_replicate]
    exact ⟨by simpa using hnz q hq, rfl⟩

theorem dedup_length_tagged (pairs : List (String × DataFrame))
    (hnd : (pairs.map Prod.fst).Nodup) (hnz : ∀ p ∈ pairs, p.2.rows ≠ []) :
    (catLists (pairs.map (fun q => List.replicate q.2.rows.length (Cell.str q.1)))).dedup.length
      = pairs.length := by
  have h1 : (catLists (pairs.map (fun q => List.replicate q.2.rows.length (Cell.str q.1)))).toFinset
      = (pairs.map (fun q => Cell.str q.1)).toFinset := by
    apply Finset.ext_iff.mpr
    intro a
    rw [List.mem_toFinset, List.mem_toFinset]
    exact mem_tagged_vals hnz
  have h2 : (pairs.map (fun q => Cell.str q.1)).Nodup := by
    have : pairs.map (fun q => Cell.str q.1) = (pairs.map Prod.fst).map Cell.str := by
      rw [List.map_map]
      rfl
    rw [this]
    exact hnd.map (fun a b e => Cell.str.inj e)
  calc (catLists (pairs.map (fun q => List.replicate q.2.rows.length (Cell.str q.1)))).dedup.length
      = (catLists (pairs.map (fun q => List.replicate q.2.rows.length (Cell.str q.1)))).toFinset.card :=
        (List.card_toFinset _).symm
    _ = (pairs.map (fun q => Cell.str q.1)).toFinset.card := by rw [h1]
    _ = (pairs.map (fun q => Cell.str q.1)).length := List.toFinset_card_of_nodup h2
    _ = pairs.length := by simp

theorem filter_ne_null_of_all_str {l : List Cell} (h : ∀ a ∈ l, a ≠ Cell.null) :
    l.filter (fun c => decide (c ≠ Cell.null)) = l :=
  List.filter_eq_self.mpr (fun a ha => by simpa using h a ha)

/-! ### Lemmas about the upload loop -/

theorem processOne_eq_some {f : UploadedFile} {d : DataFrame} (h : f.parsed = some d) :
    processOne f = some (addSourceFile f.name (fix_headers_if_needed d)) := by
  simp [processOne, h]

theorem procD_eq {f : UploadedFile} {d : DataFrame} (h : f.parsed = some d) :
    procD f = addSourceFile f.name (fix_headers_if_needed d) := by
  simp [procD, h]

theorem foldl_stepFile_combined (files : List UploadedFile) :
    ∀ s : AppState, (files.foldl stepFile s).combined_list
      = s.combined_list ++ files.filterMap processOne := by
  induction files with
  | nil => intro s; simp
  | cons f fs ih =>
    intro s
    rw [List.foldl_cons, ih]
    cases hf : processOne f with
    | none => simp [stepFile, hf, List.filterMap_cons]
    | some d => simp [stepFile, hf, List.filterMap_cons]

theorem processFiles_combined (files : List UploadedFile) :
    (processFiles files).combined_list = files.filterMap processOne := by
  have := foldl_stepFile_combined files (AppState.mk [] [] [])
  simpa [processFiles] using this

theorem foldl_stepFile_errors (files : List UploadedFile) :
    ∀ s : AppState, (files.foldl stepFile s).errors
      = s.errors ++ (files.filter (fun f => f.parsed.isNone)).map UploadedFile.name := by
  induction files with
  | nil => intro s; simp
  | cons f fs ih =>
    intro s
    rw [List.foldl_cons, ih]
    cases hp : f.parsed with
    | none =>
      have hf : processOne f = none := by simp [processOne, hp]
      simp [stepFile, hf, List.filter_cons, hp]
    | some d =>
      have hf : processOne f = some (addSourceFile f.name (fix_headers_if_needed d)) :=
        processOne_eq_some hp
      simp [stepFile, hf, List.filter_cons, hp]

theorem processFiles_errors (files : List UploadedFile) :
    (processFiles files).errors
      = (files.filter (fun f => f.parsed.isNone)).map UploadedFile.name := by
  have := foldl_stepFile_errors files (AppState.mk [] [] [])
  simpa [processFiles] using this

/-! ### Lemmas about the `raw_dfs` dict store -/

theorem lookupD_map_overwrite {k : String} {v : DataFrame} :
    ∀ d : List (String × DataFrame), d.any (fun p => decide (p.1 = k)) = true →
      lookupD (d.map (fun p => if p.1 = k then (k, v) else p)) k = some v := by
  intro d
  induction d with
  | nil => intro h; simp at h
  | cons p ps ih =>
    intro h
    by_cases hp : p.1 = k
    · simp [lookupD, List.find?_cons, hp]
    · have hps : ps.any (fun q => decide (q.1 = k)) = true := by
        simpa [List.any_cons, hp] using h
      have := ih hps
      simpa [lookupD, List.find?_cons, hp] using this

theorem lookupD_append_new {k : String} {v : DataFrame} :
    ∀ d : List (String × DataFrame), (∀ p ∈ d, p.1 ≠ k) →
      lookupD (d ++ [(k, v)]) k = some v := by
  intro d
  induction d with
  | nil => simp [lookupD, List.find?_cons]
  | cons p ps ih =>
    intro h
    have hp : p.1 ≠ k := h p (List.mem_cons_self p ps)
    have := ih (fun q hq => h q (List.mem_cons_of_mem _ hq))
    simpa [lookupD, List.find?_cons, hp] using this

theorem lookupD_dictInsert_self (d : List (String × DataFrame)) (k : String) (v : DataFrame) :
    lookupD (dictInsert d k v) k = some v := by
  unfold dictInsert
  by_cases h : d.any (fun p => decide (p.1 = k)) = true
  · rw [if_pos h]
    exact lookupD_map_overwrite d h
  · rw [if_neg h]
    apply lookupD_append_new
    intro p hp he
    exact h (List.any_eq_true.mpr ⟨p, hp, by simpa using he⟩)

theorem lookupD_map_overwrite_ne {k k' : String} {v : DataFrame} (h : k' ≠ k) :
    ∀ d : List (String × DataFrame),
      lookupD (d.map (fun p => if p.1 = k then (k, v) else p)) k' = lookupD d k' := by
  have hkk : ¬((k : String) = k') := fun e => h e.symm
  intro d
  induction d with
  | nil => rfl
  | cons p ps ih =>
    by_cases hp : p.1 = k
    · have h2 : ¬(p.1 = k') := by rw [hp]; exact hkk
      simp only [List.map_cons, lookupD, List.find?_cons, if_pos hp]
      rw [show (decide ((k, v).1 = k')) = false from by simpa using hkk,
        show (decide (p.1 = k')) = false from by simpa using h2]
      simpa [lookupD] using ih
    · simp only [List.map_cons, lookupD, List.find?_cons, if_neg hp]
      cases hq : decide (p.1 = k') with
      | true => rfl
      | false => simpa [lookupD] using ih

theorem lookupD_append_ne {k k' : String} {v : DataFrame} (h : k' ≠ k) :
    ∀ d : List (String × DataFrame), lookupD (d ++ [(k, v)]) k' = lookupD d k' := by
  have hkk : ¬((k : String) = k') := fun e => h e.symm
  intro d
  induction d with
  | nil => simp [lookupD, List.find?_cons, hkk]
  | cons p ps ih =>
    simp only [List.cons_append, lookupD, List.find?_cons]
    cases hq : decide (p.1 = k') with
    | true => rfl
    | false => simpa [lookupD] using ih

theorem lookupD_dictInsert_ne (d : List (String × DataFrame)) {k k' : String}
    (v : DataFrame) (h : k' ≠ k) :
    lookupD (dictInsert d k v) k' = lookupD d k' := by
  unfold dictInsert
  by_cases hc : d.any (fun p => decide (p.1 = k)) = true
  · rw [if_pos hc]
    exact lookupD_map_overwrite_ne h d
  · rw [if_neg hc]
    exact lookupD_append_ne h d

theorem lookupD_some_mem {d : List (String × DataFrame)} {k : String} {v : DataFrame}
    (h : lookupD d k = some v) : (k, v) ∈ d := by
  unfold lookupD at h
  cases hf : d.find? (fun p => decide (p.1 = k)) with
  | none => rw [hf] at h; simp at h
  | some p =>
    rw [hf] at h
    simp at h
    have h1 : p.1 = k := by simpa using List.find?_some hf
    have hm := List.mem_of_find?_eq_some hf
    rcases p with ⟨a, b⟩
    simp at h1 h
    rw [← h1, ← h]
    exact hm

theorem lookupD_foldl_preserved (post : List UploadedFile) {k : String} :
    ∀ s : AppState, (∀ g ∈ post, g.name = k → g.parsed = none) →
      lookupD (post.foldl stepFile s).raw_dfs k = lookupD s.raw_dfs k := by
  induction post with
  | nil => intro s _; rfl
  | cons g gs ih =>
    intro s h
    rw [List.foldl_cons, ih _ (fun q hq => h q (List.mem_cons_of_mem _ hq))]
    cases hp : g.parsed with
    | none => simp [stepFile, processOne, hp]
    | some d =>
      have hne : g.name ≠ k := by
        intro e
        have := h g (List.mem_cons_self g gs) e
        rw [this] at hp
        exact Option.noConfusion hp
      have hpo : processOne g = some (addSourceFile g.name (fix_headers_if_needed d)) :=
        processOne_eq_some hp
      simp only [stepFile, hpo]
      exact lookupD_dictInsert_ne _ _ (fun e => hne e.symm)

theorem raw_dfs_nodup_aux :
    ∀ (files : List UploadedFile) (s : AppState),
      (∀ f ∈ files, ∀ p ∈ s.raw_dfs, p.1 ≠ f.name) →
      (files.map UploadedFile.name).Nodup →
      (∀ f ∈ files, f.parsed.isSome) →
      (files.foldl stepFile s).raw_dfs
        = s.raw_dfs ++ files.map (fun f => (f.name, procD f)) := by
  intro files
  induction files with
  | nil => intro s _ _ _; simp
  | cons f fs ih =>
    intro s hdis hnd hsome
    obtain ⟨d, hd⟩ := Option.isSome_iff_exists.mp (hsome f (List.mem_cons_self f fs))
    have hpo : processOne f = some (procD f) := by
      rw [procD_eq hd]
      exact processOne_eq_some hd
    have hnotin : ¬(s.raw_dfs.any (fun p => decide (p.1 = f.name)) = true) := by
      intro hc
      obtain ⟨p, hp, hpe⟩ := List.any_eq_true.mp hc
      exact hdis f (List.mem_cons_self f fs) p hp (by simpa using hpe)
    have hstep : stepFile s f
        = AppState.mk (s.raw_dfs ++ [(f.name, procD f)]) (s.combined_list ++ [procD f]) s.errors := by
      simp only [stepFile, hpo, dictInsert, if_neg hnotin]
    rw [List.foldl_cons, hstep]
    have hnd' : (fs.map UploadedFile.name).Nodup := (List.nodup_cons.mp (by simpa using hnd)).2
    have hfnot : f.name ∉ fs.map UploadedFile.name := (List.nodup_cons.mp (by simpa using hnd)).1
    rw [ih _ ?hdis hnd' (fun g hg => hsome g (List.mem_cons_of_mem _ hg))]
    · simp
    case hdis =>
      intro g hg p hp
      simp only [List.mem_append] at hp
      rcases hp with hp | hp
      · exact hdis g (List.mem_cons_of_mem _ hg) p hp
      · simp at hp
        rw [hp]
        intro e
        have e' : f.name = g.name := e
        apply hfnot
        rw [e']
        exact List.mem_map.mpr ⟨g, hg, rfl⟩

theorem processFiles_raw_dfs_nodup (files : List UploadedFile)
    (hnd : (files.map UploadedFile.name).Nodup)
    (hsome : ∀ f ∈ files, f.parsed.isSome) :
    (processFiles files).raw_dfs = files.map (fun f => (f.name, procD f)) := by
  have := raw_dfs_nodup_aux files (AppState.mk [] [] []) (by simp) hnd hsome
  simpa [processFiles] using this

/-! ### The summary of a concatenation of tagged frames -/

theorem sourceVals_concat_pairs (pairs : List (String × DataFrame))
    (hsrc : ∀ p ∈ pairs, srcLabel ∈ p.2.cols)
    (htag : ∀ p ∈ pairs, Tagged p.1 p.2) :
    sourceVals (concatDFs (pairs.map Prod.snd))
      = catLists (pairs.map (fun q => List.replicate q.2.rows.length (Cell.str q.1))) := by
  have hac : ∀ p ∈ pairs, srcLabel ∈ unionCols (pairs.map Prod.snd) := by
    intro p hp
    exact mem_unionCols.mpr ⟨p.2, List.mem_map.mpr ⟨p, hp, rfl⟩, hsrc p hp⟩
  exact sourceVals_concat_tagged (unionCols (pairs.map Prod.snd)) pairs hac htag

theorem concat_pairs_rows_length (pairs : List (String × DataFrame)) :
    (concatDFs (pairs.map Prod.snd)).rows.length
      = (pairs.map (fun p => p.2.rows.length)).sum := by
  show (concatRows _ (pairs.map Prod.snd)).length = _
  rw [concatRows_length, List.map_map]
  rfl

theorem summary_of_tagged (pairs : List (String × DataFrame))
    (hsrc : ∀ p ∈ pairs, srcLabel ∈ p.2.cols)
    (htag : ∀ p ∈ pairs, Tagged p.1 p.2)
    (hnz : ∀ p ∈ pairs, p.2.rows ≠ [])
    (hnd : (pairs.map Prod.fst).Nodup) :
    (summary_df (concatDFs (pairs.map Prod.snd))).length = pairs.length
    ∧ ∀ p ∈ pairs,
        (Cell.str p.1, p.2.rows.length) ∈ summary_df (concatDFs (pairs.map Prod.snd)) := by
  have hv := sourceVals_concat_pairs pairs hsrc htag
  have hvstr : ∀ a ∈ sourceVals (concatDFs (pairs.map Prod.snd)), a ≠ Cell.null := by
    intro a ha
    rw [hv] at ha
    obtain ⟨q, _, rfl⟩ := List.mem_map.mp ((mem_tagged_vals hnz).mp ha)
    exact Cell.noConfusion
  have hfilter : (sourceVals (concatDFs (pairs.map Prod.snd))).dedup.filter
      (fun c => decide (c ≠ Cell.null))
      = (sourceVals (concatDFs (pairs.map Prod.snd))).dedup :=
    filter_ne_null_of_all_str (fun a ha => hvstr a (List.mem_dedup.mp ha))
  constructor
  · show ((sortCells _).map _).length = _
    rw [List.length_map, length_sortCells, hfilter, hv]
    exact dedup_length_tagged pairs hnd hnz
  · intro p hp
    have hkmem : Cell.str p.1 ∈ sourceVals (concatDFs (pairs.map Prod.snd)) := by
      rw [hv]
      exact (mem_tagged_vals hnz).mpr (List.mem_map.mpr ⟨p, hp, rfl⟩)
    have hksort : Cell.str p.1 ∈ sortCells ((sourceVals (concatDFs (pairs.map Prod.snd))).dedup.filter
        (fun c => decide (c ≠ Cell.null))) := by
      rw [hfilter, mem_sortCells, List.mem_dedup]
      exact hkmem
    refine List.mem_map.mpr ⟨Cell.str p.1, hksort, ?_⟩
    have hcount : (sourceVals (concatDFs (pairs.map Prod.snd))).countP
        (fun x => decide (x = Cell.str p.1)) = p.2.rows.length := by
      rw [hv]
      exact countP_tagged_vals pairs hnd hp
    rw [hcount]

/-! ### Per-position lemmas for the tagging frame effect -/

theorem getD_zipWith_ite {cols r : List Cell} {x lab : Cell} {j : Nat}
    (hj : j < cols.length) (hlen : r.length = cols.length) :
    (List.zipWith (fun c v => if c = lab then x else v) cols r).getD j Cell.null
      = if cols.getD j Cell.null = lab then x else r.getD j Cell.null := by
  induction cols generalizing r j with
  | nil => simp at hj
  | cons c cs ih =>
    cases r with
    | nil => simp at hlen
    | cons a as =>
      cases j with
      | zero => simp [List.zipWith_cons_cons]
      | succ j =>
        have hj' : j < cs.length := by simpa using hj
        have hlen' : as.length = cs.length := by simpa using hlen
        simpa [List.zipWith_cons_cons, List.getD_cons_succ] using ih hj' hlen'

theorem getD_map_rows {α β : Type} (f : α → β) {l : List α} {i : Nat}
    (h : i < l.length) (d : α) (d' : β) :
    (l.map f).getD i d' = f (l.getD i d) := by
  rw [List.getD_eq_getElem _ _ (by simpa using h), List.getD_eq_getElem _ _ h]
  simp

theorem getD_mem_rows {l : List (List Cell)} {i : Nat} (h : i < l.length) :
    l.getD i [] ∈ l := by
  rw [List.getD_eq_getElem _ _ h]
  exact List.getElem_mem h

/-! ### Replicated-value summaries -/

theorem dedup_replicate_pos {α : Type} [DecidableEq α] {a : α} :
    ∀ {k : Nat}, 0 < k → (List.replicate k a).dedup = [a] := by
  intro k hk
  induction k with
  | zero => omega
  | succ k ih =>
    cases k with
    | zero => simp
    | succ m =>
      rw [List.replicate_succ, List.dedup_cons_of_mem (by simp [List.mem_replicate])]
      exact ih (Nat.succ_pos m)

theorem summary_replicate {df : DataFrame} {n : String} {k : Nat} (hk : k ≠ 0)
    (hv : sourceVals df = List.replicate k (Cell.str n)) :
    summary_df df = [(Cell.str n, k)] := by
  unfold summary_df
  rw [hv, dedup_replicate_pos (Nat.pos_of_ne_zero hk)]
  have hfil : ([Cell.str n]).filter (fun c => decide (c ≠ Cell.null)) = [Cell.str n] := by
    apply List.filter_eq_self.mpr
    intro a ha
    simp at ha
    subst ha
    simp
  rw [hfil]
  show [Cell.str n].map _ = _
  simp [countP_replicate]

/-! ### C1 — header repair: promotion scan, drop, and the non-integer
branch -/

/-- C1: when every column label is an integer, header repair promotes
the first row having a non-empty cell to the column labels and drops
every row up to and including it; when some label is not an integer,
no row is dropped and the labels are not replaced by row values (they
are only cleaned). -/
theorem c1_header_promotion (df : DataFrame) :
    (∀ i, df.cols.all Cell.isInt = true → firstDataRow df.rows = some i →
      (promoteHeaders df).cols = df.rows.getD i []
      ∧ (promoteHeaders df).rows = df.rows.drop (i + 1)
      ∧ (fix_headers_if_needed df).rows = df.rows.drop (i + 1))
    ∧ (df.cols.all Cell.isInt = false →
      promoteHeaders df = df ∧ (fix_headers_if_needed df).rows = df.rows
      ∧ (fix_headers_if_needed df).cols = df.cols.map cleanCell) := by
  constructor
  · intro i hall hfind
    have hp : promoteHeaders df = DataFrame.mk (df.rows.getD i []) (df.rows.drop (i + 1)) := by
      simp [promoteHeaders, hall, hfind]
    exact ⟨by rw [hp], by rw [hp], by simp [fix_headers_if_needed, hp]⟩
  · intro hall
    have hp : promoteHeaders df = df := by simp [promoteHeaders, hall]
    exact ⟨hp, by simp [fix_headers_if_needed, hp], by simp [fix_headers_if_needed, hp]⟩

/-- C1 witness: on a concrete header-less frame the blank row 0 is
skipped and row 1 is promoted. -/
theorem c1_header_promotion_witness :
    wDHdr.cols.all Cell.isInt = true
    ∧ firstDataRow wDHdr.rows = some 1
    ∧ (promoteHeaders wDHdr).cols = wDHdr.rows.getD 1 []
    ∧ (promoteHeaders wDHdr).rows = wDHdr.rows.drop (1 + 1)
    ∧ (fix_headers_if_needed wDHdr).rows = wDHdr.rows.drop (1 + 1) := by
  have h := (c1_header_promotion wDHdr).1 1 (by decide) (by decide)
  exact ⟨by decide, by decide, h.1, h.2.1, h.2.2⟩

/-! ### C5 — label normalization -/

/-- C5: after header repair every column label is a string with no
leading or trailing whitespace and no embedded newline (embedded
newlines were replaced by spaces); the labels are exactly the cleaned
forms of the labels after promotion. -/
theorem c5_label_normalization (df : DataFrame) :
    (fix_headers_if_needed df).cols = (promoteHeaders df).cols.map cleanCell
    ∧ ∀ c ∈ (fix_headers_if_needed df).cols, ∃ s : String, c = Cell.str s
        ∧ noLeadWs s.data = true ∧ noTrailWs s.data = true
        ∧ ∀ ch ∈ s.data, ch ≠ '\n' := by
  refine ⟨rfl, ?_⟩
  intro c hc
  have hm : c ∈ (promoteHeaders df).cols.map cleanCell := hc
  obtain ⟨c₀, _, rfl⟩ := List.mem_map.mp hm
  exact ⟨cleanLabel (cellToStr c₀), rfl, (cleanLabel_ok _).1, (cleanLabel_ok _).2.1,
    (cleanLabel_ok _).2.2⟩

/-- C5 witness: the concrete label of `wD1` after repair is a clean
string. -/
theorem c5_label_normalization_witness :
    ∃ s : String, Cell.str "h" = Cell.str s
      ∧ noLeadWs s.data = true ∧ noTrailWs s.data = true
      ∧ ∀ ch ∈ s.data, ch ≠ '\n' :=
  (c5_label_normalization wD1).2 (Cell.str "h") (by decide)

/-! ### C6 — all-integer labels with no data-bearing row -/

/-- C6 counterexample: with integer labels and only NA rows, the labels
do **not** persist unchanged — the unconditional cleaning coerces the
integer label `0` to the string `"0"`. -/
theorem c6_counterexample :
    (fix_headers_if_needed wDNoData).cols = [Cell.str "0"]
    ∧ (fix_headers_if_needed wDNoData).rows.length = 1
    ∧ ¬((fix_headers_if_needed wDNoData).cols = [Cell.int 0]) := by
  decide

/-- C6 (amended): with all-integer labels and no row containing a
non-empty cell, header promotion is skipped and the row count is
unchanged; the labels persist only up to the unconditional string
coercion — each becomes the cleaned decimal string of the integer. -/
theorem c6_no_data_rows (df : DataFrame)
    (hall : df.cols.all Cell.isInt = true)
    (hempty : ∀ r ∈ df.rows, ∀ c ∈ r, c = Cell.null) :
    promoteHeaders df = df
    ∧ (fix_headers_if_needed df).rows = df.rows
    ∧ (fix_headers_if_needed df).cols = df.cols.map cleanCell := by
  have hnone : firstDataRow df.rows = none := by
    apply firstDataRow_eq_none
    intro r hr
    simp only [rowHasData, List.any_eq_false]
    intro c hc
    rw [hempty r hr c hc]
    simp [Cell.notna]
  have hp : promoteHeaders df = df := by simp [promoteHeaders, hall, hnone]
  exact ⟨hp, by simp [fix_headers_if_needed, hp], by simp [fix_headers_if_needed, hp]⟩

/-- C6 witness: the degenerate frame with one all-NA row. -/
theorem c6_no_data_rows_witness :
    promoteHeaders wDNoData = wDNoData
    ∧ (fix_headers_if_needed wDNoData).rows = wDNoData.rows
    ∧ (fix_headers_if_needed wDNoData).cols = wDNoData.cols.map cleanCell :=
  c6_no_data_rows wDNoData (by decide) (by decide)

/-! ### C7 — header in the second physical row -/

/-- C7 counterexample: a non-empty "garbage" row 0 is itself promoted:
the labels come from row 0, not row 1, and only one row is dropped. -/
theorem c7_counterexample :
    (fix_headers_if_needed wDGarbage).cols = [Cell.str "junk"]
    ∧ (fix_headers_if_needed wDGarbage).rows.length = 2
    ∧ ¬((fix_headers_if_needed wDGarbage).cols = [Cell.str "h"]
        ∧ (fix_headers_if_needed wDGarbage).rows.length = wDGarbage.rows.length - 2) := by
  decide

/-- C7 (amended): with all-integer labels, an entirely empty (all-NA)
row 0, and a second row containing a non-empty cell, header repair
promotes the second row: the labels are the cleaned second-row values
and the row count drops by exactly 2. -/
theorem c7_second_row_header (df : DataFrame) (r0 r1 : List Cell) (rest : List (List Cell))
    (hrows : df.rows = r0 :: r1 :: rest)
    (hall : df.cols.all Cell.isInt = true)
    (h0 : ∀ c ∈ r0, c = Cell.null)
    (h1 : rowHasData r1 = true) :
    (fix_headers_if_needed df).cols = r1.map cleanCell
    ∧ (fix_headers_if_needed df).rows.length = df.rows.length - 2 := by
  have h0' : rowHasData r0 = false := by
    simp only [rowHasData, List.any_eq_false]
    intro c hc
    rw [h0 c hc]
    simp [Cell.notna]
  have hfind : firstDataRow df.rows = some 1 := by
    rw [hrows]
    exact firstDataRow_cons2 h0' h1
  have hp : promoteHeaders df = DataFrame.mk (df.rows.getD 1 []) (df.rows.drop 2) := by
    simp [promoteHeaders, hall, hfind]
  constructor
  · show ((promoteHeaders df).cols.map cleanCell) = _
    rw [hp, hrows]
    simp
  · show (promoteHeaders df).rows.length = _
    rw [hp, hrows]
    simp

/-- C7 witness: empty row 0, header `"h"` in row 1, one data row. -/
theorem c7_second_row_header_witness :
    (fix_headers_if_needed wDSecondRow).cols = [Cell.str "h"].map cleanCell
    ∧ (fix_headers_if_needed wDSecondRow).rows.length = wDSecondRow.rows.length - 2 :=
  c7_second_row_header wDSecondRow [Cell.null] [Cell.str "h"] [[Cell.str "v"]]
    rfl (by decide) (by decide) (by decide)

/-! ### C8 — output file name -/

/-- C8: the output name defaults to `"combined_output.xlsx"`; the final
name always ends (case-insensitively) with `.xlsx`; `.xlsx` is appended
exactly when the supplied name does not already end with it
case-insensitively, and is left unchanged otherwise. -/
theorem c8_filename (s : String) :
    defaultOutputName = "combined_output.xlsx"
    ∧ finalizeFilename defaultOutputName = defaultOutputName
    ∧ strEndsWith (strLower (finalizeFilename s)) ".xlsx" = true
    ∧ (strEndsWith (strLower s) ".xlsx" = true → finalizeFilename s = s)
    ∧ (strEndsWith (strLower s) ".xlsx" = false → finalizeFilename s = s ++ ".xlsx") := by
  refine ⟨rfl, by decide, ?_, ?_, ?_⟩
  · by_cases h : strEndsWith (strLower s) ".xlsx" = true
    · rw [finalizeFilename, if_pos h]
      exact h
    · rw [finalizeFilename, if_neg h]
      have hdata : (strLower (s ++ ".xlsx")).data
          = (strLower s).data ++ (".xlsx" : String).data := by
        show ((s ++ ".xlsx").data.map Char.toLower)
            = s.data.map Char.toLower ++ (".xlsx" : String).data
        rw [String.data_append, List.map_append]
        congr 1
      show List.isSuffixOf (".xlsx" : String).data (strLower (s ++ ".xlsx")).data = true
      rw [hdata]
      exact List.isSuffixOf_iff_suffix.mpr (List.suffix_append _ _)
  · intro h
    rw [finalizeFilename, if_pos h]
  · intro h
    rw [finalizeFilename, if_neg (by simp [h])]

/-- C8 witness: a bare name gets `.xlsx` appended; an upper-case
`.XLSX` name is left unchanged. -/
theorem c8_filename_witness :
    finalizeFilename "report" = "report" ++ ".xlsx"
    ∧ finalizeFilename "A.XLSX" = "A.XLSX" :=
  ⟨(c8_filename "report").2.2.2.2 (by decide),
    (c8_filename "A.XLSX").2.2.2.1 (by decide)⟩

/-! ### C10 — frame effect of the `source_file` tagging -/

/-- C10: tagging changes no column other than `source_file`: when the
column is absent it is appended last and every pre-existing column keeps
its position and values; when it is already present the labels are
unchanged and only the `source_file` positions are overwritten, every
row ending up with the uploaded file's name in that column. -/
theorem c10_tagging_frame (name : String) (df : DataFrame) (hwf : Wf df) :
    (srcLabel ∈ df.cols → (addSourceFile name df).cols = df.cols)
    ∧ (srcLabel ∉ df.cols → (addSourceFile name df).cols = df.cols ++ [srcLabel])
    ∧ (addSourceFile name df).rows.length = df.rows.length
    ∧ (∀ i j, i < df.rows.length → j < df.cols.length →
        df.cols.getD j Cell.null ≠ srcLabel →
        ((addSourceFile name df).rows.getD i []).getD j Cell.null
          = (df.rows.getD i []).getD j Cell.null)
    ∧ ∀ r ∈ (addSourceFile name df).rows,
        getCell (addSourceFile name df).cols r srcLabel = Cell.str name := by
  refine ⟨?_, ?_, ?_, ?_, getCell_addSourceFile hwf⟩
  · intro h
    simp [addSourceFile, h]
  · intro h
    simp [addSourceFile, h]
  · unfold addSourceFile
    by_cases h : srcLabel ∈ df.cols
    · rw [if_pos h]
      simp
    · rw [if_neg h]
      simp
  · intro i j hi hj hlab
    unfold addSourceFile
    by_cases h : srcLabel ∈ df.cols
    · rw [if_pos h]
      show ((df.rows.map _).getD i []).getD j Cell.null = _
      rw [getD_map_rows _ hi [] []]
      have hlen : (df.rows.getD i []).length = df.cols.length := hwf _ (getD_mem_rows hi)
      rw [getD_zipWith_ite hj hlen, if_neg hlab]
    · rw [if_neg h]
      show ((df.rows.map _).getD i []).getD j Cell.null = _
      rw [getD_map_rows _ hi [] []]
      apply List.getD_append
      rw [hwf _ (getD_mem_rows hi)]
      exact hj

/-- C10 witness: overwriting an existing `source_file` column keeps the
other column's value and installs the new name. -/
theorem c10_tagging_frame_witness :
    (addSourceFile "new.csv" wDSrc).cols = wDSrc.cols
    ∧ ((addSourceFile "new.csv" wDSrc).rows.getD 0 []).getD 0 Cell.null
        = (wDSrc.rows.getD 0 []).getD 0 Cell.null
    ∧ getCell (addSourceFile "new.csv" wDSrc).cols [Cell.int 1, Cell.str "new.csv"] srcLabel
        = Cell.str "new.csv" := by
  have h := c10_tagging_frame "new.csv" wDSrc (by decide)
  exact ⟨h.1 (by decide), h.2.2.2.1 0 0 (by decide) (by decide) (by decide),
    h.2.2.2.2 [Cell.int 1, Cell.str "new.csv"] (by decide)⟩

/-! ### C2 — aggregation row counts and summary entries -/

/-- C2 counterexample: the claim fails as stated.  Two tagged one-row
datasets sharing the tag `"a.csv"` give a combined frame with 2 rows but
a summary with a single entry, not `N = 2`; and a single tagged dataset
with zero rows gives a summary with no entry at all, not `N = 1`. -/
theorem c2_counterexample :
    ((concatDFs [wTagged, wTagged]).rows.length = 2
      ∧ (summary_df (concatDFs [wTagged, wTagged])).length = 1
      ∧ ¬((summary_df (concatDFs [wTagged, wTagged])).length = 2))
    ∧ ((summary_df (concatDFs [wTaggedEmpty])).length = 0
      ∧ ¬((summary_df (concatDFs [wTaggedEmpty])).length = 1)) := by
  decide

/-- C2 (amended): for N successfully parsed and tagged datasets with
pairwise-distinct source tags and at least one row each, concatenation
yields exactly `r1 + ... + rN` rows and the summary has exactly `N`
entries, the entry keyed by the i-th tag carrying count `ri`. -/
theorem c2_aggregation (pairs : List (String × DataFrame))
    (htag : ∀ p ∈ pairs, Tagged p.1 p.2)
    (hnz : ∀ p ∈ pairs, p.2.rows ≠ [])
    (hnd : (pairs.map Prod.fst).Nodup) :
    (concatDFs (pairs.map Prod.snd)).rows.length
        = (pairs.map (fun p => p.2.rows.length)).sum
    ∧ (summary_df (concatDFs (pairs.map Prod.snd))).length = pairs.length
    ∧ ∀ p ∈ pairs,
        (Cell.str p.1, p.2.rows.length) ∈ summary_df (concatDFs (pairs.map Prod.snd)) := by
  have hsrc : ∀ p ∈ pairs, srcLabel ∈ p.2.cols := by
    intro p hp
    obtain ⟨r, hr⟩ := List.exists_mem_of_ne_nil _ (hnz p hp)
    have hne : getCell p.2.cols r srcLabel ≠ Cell.null := by
      rw [htag p hp r hr]
      exact Cell.noConfusion
    exact getCell_ne_null_mem hne
  have h := summary_of_tagged pairs hsrc htag hnz hnd
  exact ⟨concat_pairs_rows_length pairs, h.1, h.2⟩

/-- C2 witness: two distinct tags with one row each give 2 combined
rows and a 2-entry summary carrying both counts. -/
theorem c2_aggregation_witness :
    (concatDFs ([("a.csv", wTagged), ("b.csv", wTaggedB)].map Prod.snd)).rows.length
        = ([("a.csv", wTagged), ("b.csv", wTaggedB)].map
            (fun p => p.2.rows.length)).sum
    ∧ (summary_df (concatDFs ([("a.csv", wTagged), ("b.csv", wTaggedB)].map Prod.snd))).length
        = [("a.csv", wTagged), ("b.csv", wTaggedB)].length
    ∧ ∀ p ∈ [("a.csv", wTagged), ("b.csv", wTaggedB)],
        (Cell.str p.1, p.2.rows.length)
          ∈ summary_df (concatDFs ([("a.csv", wTagged), ("b.csv", wTaggedB)].map Prod.snd)) :=
  c2_aggregation [("a.csv", wTagged), ("b.csv", wTaggedB)] (by decide) (by decide) (by decide)

/-! ### C3 — number and names of exported sheets -/

/-- C3 counterexample: two uploads sharing the name `"a.csv"` (both
parsing fine) are stored under one dict key, so the export has 3 sheets,
not `N + 2 = 4`. -/
theorem c3_counterexample :
    (appExport [wF1, wF2]).length = 3
    ∧ ¬((appExport [wF1, wF2]).length = [wF1, wF2].length + 2) := by
  decide

/-- C3 (amended): for N successfully parsed uploads with
pairwise-distinct names the workbook has exactly `N + 2` sheets:
`Combined_Data`, `File_Summary`, and one sheet per file named by the
file name truncated to 31 characters. -/
theorem c3_export_sheets (files : List UploadedFile)
    (hnd : (files.map UploadedFile.name).Nodup)
    (hsome : ∀ f ∈ files, f.parsed.isSome) :
    (appExport files).length = files.length + 2
    ∧ (appExport files).map Prod.fst
        = "Combined_Data" :: "File_Summary" :: files.map (fun f => f.name.take 31) := by
  have hraw := processFiles_raw_dfs_nodup files hnd hsome
  constructor
  · show (export_to_excel _ _ _).length = _
    rw [hraw]
    simp [export_to_excel]
  · show (export_to_excel _ _ _).map Prod.fst = _
    rw [hraw]
    simp [export_to_excel, List.map_map]

/-- C3 witness: two distinct uploads give a 4-sheet export with the
expected sheet names. -/
theorem c3_export_sheets_witness :
    (appExport [wF1, wF3]).length = [wF1, wF3].length + 2
    ∧ (appExport [wF1, wF3]).map Prod.fst
        = "Combined_Data" :: "File_Summary"
          :: [wF1, wF3].map (fun f => f.name.take 31) :=
  c3_export_sheets [wF1, wF3] (by decide) (by decide)

/-! ### C4 — parse-failure isolation -/

set_option maxRecDepth 4096 in
/-- C4 counterexample: with uploads `a.csv`, `a.csv`, `bad.csv` (the
last unparseable), the failure is reported and the batch continues, but
the first `a.csv` — though parsed successfully — does **not** contribute
its dataset to the per-file store or to the export: the later upload of
the same name overwrote it. -/
theorem c4_counterexample :
    ("bad.csv" ∈ (processFiles [wF1, wF2, wFBad]).errors)
    ∧ (procD wF1 ∈ (processFiles [wF1, wF2, wFBad]).combined_list)
    ∧ ¬(("a.csv", procD wF1) ∈ (processFiles [wF1, wF2, wFBad]).raw_dfs)
    ∧ ¬((("a.csv" : String).take 31, procD wF1) ∈ appExport [wF1, wF2, wFBad]) := by
  decide

/-- C4 (amended): a parse failure surfaces an error naming the file and
never aborts the batch: the reported errors are exactly the failing
files' names, the Combined Dataset is fed exactly the tagged datasets of
the successfully parsed files in order, and a successful file's dataset
is kept in the per-file store and the export whenever no later upload of
the same name also parses. -/
theorem c4_error_isolation (files : List UploadedFile) :
    (processFiles files).errors
        = (files.filter (fun f => f.parsed.isNone)).map UploadedFile.name
    ∧ (processFiles files).combined_list = files.filterMap processOne
    ∧ ∀ pre f post, files = pre ++ f :: post → ∀ d, f.parsed = some d →
        (∀ g ∈ post, g.name = f.name → g.parsed = none) →
        lookupD (processFiles files).raw_dfs f.name = some (procD f)
        ∧ (f.name.take 31, procD f) ∈ appExport files := by
  refine ⟨processFiles_errors files, processFiles_combined files, ?_⟩
  rintro pre f post rfl d hd hpost
  have hlookup : lookupD (processFiles (pre ++ f :: post)).raw_dfs f.name
      = some (procD f) := by
    unfold processFiles
    rw [List.foldl_append, List.foldl_cons, lookupD_foldl_preserved post _ hpost]
    have hpo : processOne f = some (procD f) := by
      rw [procD_eq hd]
      exact processOne_eq_some hd
    simp only [stepFile, hpo]
    exact lookupD_dictInsert_self _ _ _
  refine ⟨hlookup, ?_⟩
  have hmem : (f.name, procD f) ∈ (processFiles (pre ++ f :: post)).raw_dfs :=
    lookupD_some_mem hlookup
  show (f.name.take 31, procD f) ∈ export_to_excel _ _ _
  unfold export_to_excel
  exact List.mem_cons_of_mem _ (List.mem_cons_of_mem _
    (List.mem_map.mpr ⟨(f.name, procD f), hmem, rfl⟩))

/-- C4 witness: a failing first upload followed by a good one — the
error names `bad.csv`, the good file's dataset reaches the combined
list, the store, and the export. -/
theorem c4_error_isolation_witness :
    (processFiles [wFBad, wF3]).errors
        = ([wFBad, wF3].filter (fun f => f.parsed.isNone)).map UploadedFile.name
    ∧ (processFiles [wFBad, wF3]).combined_list = [wFBad, wF3].filterMap processOne
    ∧ lookupD (processFiles [wFBad, wF3]).raw_dfs wF3.name = some (procD wF3)
    ∧ (wF3.name.take 31, procD wF3) ∈ appExport [wFBad, wF3] := by
  have h := c4_error_isolation [wFBad, wF3]
  have h3 := h.2.2 [wFBad] wF3 [] rfl wD3 rfl (by simp)
  exact ⟨h.1, h.2.1, h3.1, h3.2⟩

/-! ### C9 — duplicate file names -/

/-- C9 counterexample: two same-named uploads that both parse but carry
zero rows produce **no** summary entry at all, so the claimed single
entry with the summed count does not exist. -/
theorem c9_counterexample :
    (summary_df (combinedOf (processFiles [wFE1, wFE2]))).length = 0
    ∧ ¬((summary_df (combinedOf (processFiles [wFE1, wFE2]))).length = 1) := by
  decide

/-- C9 (amended): when two uploads share a name and both parse, the
per-file store keeps only the later file's dataset, the combined frame
holds the rows of both, the summary has the single entry for that name
with the summed count provided the sum is nonzero, and the export has
3 sheets — fewer than `N + 2 = 4`. -/
theorem c9_duplicate_names (f1 f2 : UploadedFile) (d1 d2 : DataFrame)
    (hname : f2.name = f1.name)
    (h1 : f1.parsed = some d1) (h2 : f2.parsed = some d2)
    (hwf1 : Wf d1) (hwf2 : Wf d2)
    (hnz : (procD f1).rows.length + (procD f2).rows.length ≠ 0) :
    (processFiles [f1, f2]).raw_dfs = [(f1.name, procD f2)]
    ∧ (combinedOf (processFiles [f1, f2])).rows.length
        = (procD f1).rows.length + (procD f2).rows.length
    ∧ summary_df (combinedOf (processFiles [f1, f2]))
        = [(Cell.str f1.name, (procD f1).rows.length + (procD f2).rows.length)]
    ∧ (appExport [f1, f2]).length = 3 ∧ 3 < 2 + 2 := by
  have hpo1 : processOne f1 = some (procD f1) := by
    rw [procD_eq h1]
    exact processOne_eq_some h1
  have hpo2 : processOne f2 = some (procD f2) := by
    rw [procD_eq h2]
    exact processOne_eq_some h2
  have hstate : processFiles [f1, f2]
      = AppState.mk [(f1.name, procD f2)] [procD f1, procD f2] [] := by
    simp [processFiles, stepFile, hpo1, hpo2, dictInsert, hname]
  have hraw : (processFiles [f1, f2]).raw_dfs = [(f1.name, procD f2)] := by rw [hstate]
  have hcl : (processFiles [f1, f2]).combined_list = [procD f1, procD f2] := by rw [hstate]
  have hcomb : combinedOf (processFiles [f1, f2]) = concatDFs [procD f1, procD f2] := by
    rw [combinedOf, hcl]
  have htag1 : Tagged f1.name (procD f1) := by
    rw [procD_eq h1]
    exact tagged_addSourceFile (wf_fix_headers hwf1)
  have htag2 : Tagged f1.name (procD f2) := by
    rw [procD_eq h2, ← hname]
    exact tagged_addSourceFile (wf_fix_headers hwf2)
  have hsrc1 : srcLabel ∈ (procD f1).cols := by
    rw [procD_eq h1]
    exact srcLabel_mem_addSourceFile _ _
  have hsrc2 : srcLabel ∈ (procD f2).cols := by
    rw [procD_eq h2]
    exact srcLabel_mem_addSourceFile _ _
  have hv : sourceVals (concatDFs [procD f1, procD f2])
      = List.replicate ((procD f1).rows.length + (procD f2).rows.length)
          (Cell.str f1.name) := by
    have hsv := sourceVals_concat_pairs [(f1.name, procD f1), (f1.name, procD f2)]
      (by
        intro p hp
        simp at hp
        rcases hp with rfl | rfl
        · exact hsrc1
        · exact hsrc2)
      (by
        intro p hp
        simp at hp
        rcases hp with rfl | rfl
        · exact htag1
        · exact htag2)
    calc sourceVals (concatDFs [procD f1, procD f2])
        = catLists [List.replicate (procD f1).rows.length (Cell.str f1.name),
            List.replicate (procD f2).rows.length (Cell.str f1.name)] := hsv
      _ = List.replicate (procD f1).rows.length (Cell.str f1.name)
            ++ List.replicate (procD f2).rows.length (Cell.str f1.name) := by
          simp [catLists]
      _ = List.replicate ((procD f1).rows.length + (procD f2).rows.length)
            (Cell.str f1.name) := (List.replicate_add _ _ _).symm
  have hsum := summary_replicate hnz hv
  have hlen := concat_pairs_rows_length [(f1.name, procD f1), (f1.name, procD f2)]
  refine ⟨hraw, ?_, ?_, ?_, by omega⟩
  · rw [hcomb]
    simpa using hlen
  · rw [hcomb]
    exact hsum
  · show (export_to_excel _ _ _).length = 3
    rw [hraw]
    simp [export_to_excel]

/-- C9 witness: two concrete same-named uploads with 1 and 2 rows. -/
theorem c9_duplicate_names_witness :
    (processFiles [wF1, wF2]).raw_dfs = [(wF1.name, procD wF2)]
    ∧ (combinedOf (processFiles [wF1, wF2])).rows.length
        = (procD wF1).rows.length + (procD wF2).rows.length
    ∧ summary_df (combinedOf (processFiles [wF1, wF2]))
        = [(Cell.str wF1.name, (procD wF1).rows.length + (procD wF2).rows.length)]
    ∧ (appExport [wF1, wF2]).length = 3 ∧ 3 < 2 + 2 :=
  c9_duplicate_names wF1 wF2 wD1 wD2 rfl rfl rfl (by decide) (by decide) (by decide)
